import Mathlib

set_option linter.unusedVariables false

/-!
Shallow embedding of the transaction-sync core of the repository
(`syncTransactions`, `applyTransactionUpdates`, `storePlaidAccounts`,
`fetchAndStoreAccounts` in the server-actions module).

The persistent store (Supabase) is an external capability; it is modelled by
the keyed-collection contract the source relies on: upsert-by-key with
update-in-place on a conflicting key (last write in a batch wins),
delete-by-key-set, and update of every row matching a filter.  The Plaid
aggregator client is likewise external; its paginated delta fetch is modelled
as a pre-given list of page responses (each either a page or a thrown error),
consumed in order by the loop, and — for the termination claim — as an
infinite stream of pages together with explicit fuel.  Injected boolean
failure flags stand for storage errors reported by the store.
-/

namespace EgMainFrame

/-- A transaction as delivered by the aggregator (the `Transaction` payload),
restricted to the fields the source reads in `applyTransactionUpdates`. -/
structure PlaidTransaction where
  transaction_id : String
  account_id : String
  amount : Int
  authorized_datetime : Option String
  datetime : Option String
  personal_finance_category_primary : Option String
  personal_finance_category_detailed : Option String
  name : String
  merchant_name : Option String
  payment_channel : String
  iso_currency_code : Option String
  pending : Bool
deriving DecidableEq, Repr

/-- An entry of a page's `removed` set; the source reads only its
`transaction_id` (`data.removed.map (t) => t.transaction_id`). -/
structure RemovedTransaction where
  transaction_id : String
deriving DecidableEq, Repr

/-- A row of the `transactions` collection, exactly the record built for the
upsert in `applyTransactionUpdates` (lines 182-196 of the source). -/
structure TransactionRow where
  user_id : String
  account_id : String
  transaction_id : String
  amount : Int
  authorized_datetime : Option String
  datetime : Option String
  personal_finance_category_primary : Option String
  personal_finance_category_detailed : Option String
  name : String
  merchant_name : Option String
  payment_channel : String
  currency : Option String
  pending : Bool
deriving DecidableEq, Repr

/-- The field mapping of `applyTransactionUpdates`' upsert record. -/
def txToRow (userId : String) (t : PlaidTransaction) : TransactionRow :=
  { user_id := userId
    account_id := t.account_id
    transaction_id := t.transaction_id
    amount := t.amount
    authorized_datetime := t.authorized_datetime
    datetime := t.datetime
    personal_finance_category_primary := t.personal_finance_category_primary
    personal_finance_category_detailed := t.personal_finance_category_detailed
    name := t.name
    merchant_name := t.merchant_name
    payment_channel := t.payment_channel
    currency := t.iso_currency_code
    pending := t.pending }

/-- An account snapshot from the aggregator (`AccountBase`), restricted to the
fields read by `storePlaidAccounts`. -/
structure AccountBase where
  account_id : String
  balances_available : Option Int
  balances_current : Option Int
  balances_iso_currency_code : Option String
  name : String
  official_name : Option String
  account_type : String
  subtype : Option String
deriving DecidableEq, Repr

/-- The item payload used by the account-storing path (`UpdatedItem`).  Its
`institution_name` is modelled as optional: the source obtains it through a
cast, so at runtime it may be absent (or empty), which the `||` fallback in
the source treats the same way. -/
structure UpdatedItem where
  item_id : String
  institution_id : Option String
  institution_name : Option String
deriving DecidableEq, Repr

/-- A row of the `accounts` collection, exactly the record built in
`storePlaidAccounts` (lines 69-82 of the source). -/
structure AccountRow where
  user_id : String
  item_id : String
  account_id : String
  available_balance : Option Int
  current_balance : Option Int
  currency : Option String
  name : String
  official_name : Option String
  account_type : String
  subtype : Option String
  institution_id : Option String
  institution_name : String
deriving DecidableEq, Repr

/-- A row of the `items` collection (the columns written by `storePlaidItem`
plus the `cursor` column read and written by the sync engine). -/
structure ItemRow where
  user_id : String
  access_token : String
  item_id : String
  institution_id : Option String
  institution_name : String
  cursor : Option String
deriving DecidableEq, Repr

/-- The persistent store: the three collections the core touches. -/
structure Db where
  items : List ItemRow
  accounts : List AccountRow
  transactions : List TransactionRow
deriving DecidableEq, Repr

/-! ### Storage operations (the keyed-collection contract the source uses) -/

/-- Upsert of one row keyed by `key` (`onConflict` column): update-in-place on
every row carrying the conflicting key, append otherwise. -/
def upsertOne (key : α → String) (rows : List α) (row : α) : List α :=
  if rows.any (fun r => key r == key row) then
    rows.map (fun r => if key r == key row then row else r)
  else rows ++ [row]

/-- Batch upsert: rows of the batch are applied in order, so a later batch
entry with the same key overrides an earlier one (last write wins). -/
def upsertRows (key : α → String) (rows : List α) (batch : List α) : List α :=
  List.foldl (upsertOne key) rows batch

/-- Deletion by key set (`delete().in('transaction_id', ids)` in the
source): remove every row whose identifier is in the set. -/
def deleteByIds (ids : List String) (rows : List TransactionRow) :
    List TransactionRow :=
  rows.filter (fun r => !(ids.contains r.transaction_id))

/-- Conditional update (`update` with an `eq('item_id', itemId)` filter in
the source): set the cursor column of every row matching the item
identifier (possibly none). -/
def updateItemCursor (itemId cursor : String) (items : List ItemRow) :
    List ItemRow :=
  items.map (fun it =>
    if it.item_id == itemId then { it with cursor := some cursor } else it)

/-- A store call issued by the core, for frame/atomicity observations. -/
inductive StoreOp where
  | upsertTx (batch : List TransactionRow)
  | deleteTx (ids : List String)
  | updateCursor (itemId : String) (cursor : String)
  | upsertAccounts (batch : List AccountRow)
deriving DecidableEq, Repr

/-- Which storage calls are simulated to fail (report an error). -/
structure FailSpec where
  upsert : Bool
  del : Bool
  cursorCommit : Bool
deriving DecidableEq, Repr

/-- No simulated storage failure. -/
def noFail : FailSpec := ⟨false, false, false⟩

/-- Result of a write path: final store state, the store calls issued, and
the error thrown (`none` on success). -/
structure ApplyResult where
  db : Db
  ops : List StoreOp
  err : Option String
deriving DecidableEq, Repr

/-- Embedding of `applyTransactionUpdates` (lines 172-225): build the upsert
records from `added` then `modified`, upsert keyed on `transaction_id`
(throwing on a storage error), delete the removed identifiers when that set is
non-empty (throwing on a storage error), and finally write the cursor onto the
matching item rows (throwing on a storage error).  A failing call leaves the
store as it was before that call. -/
def applyTransactionUpdates (fs : FailSpec) (userId itemId : String)
    (added modified : List PlaidTransaction) (removed : List String)
    (cursor : String) (db : Db) : ApplyResult :=
  let transactionUpserts := (added ++ modified).map (txToRow userId)
  if fs.upsert then
    { db := db
      ops := [StoreOp.upsertTx transactionUpserts]
      err := some "Error upserting transactions" }
  else
    let db1 : Db :=
      { db with transactions :=
          (upsertRows TransactionRow.transaction_id db.transactions
            transactionUpserts) }
    if removed.length > 0 then
      if fs.del then
        { db := db1
          ops := [StoreOp.upsertTx transactionUpserts, StoreOp.deleteTx removed]
          err := some "Error deleting transactions" }
      else
        let db2 : Db :=
          { db1 with transactions := deleteByIds removed db1.transactions }
        if fs.cursorCommit then
          { db := db2
            ops := [StoreOp.upsertTx transactionUpserts,
                    StoreOp.deleteTx removed,
                    StoreOp.updateCursor itemId cursor]
            err := some "Error updating cursor" }
        else
          { db := { db2 with items := updateItemCursor itemId cursor db2.items }
            ops := [StoreOp.upsertTx transactionUpserts,
                    StoreOp.deleteTx removed,
                    StoreOp.updateCursor itemId cursor]
            err := none }
    else
      if fs.cursorCommit then
        { db := db1
          ops := [StoreOp.upsertTx transactionUpserts,
                  StoreOp.updateCursor itemId cursor]
          err := some "Error updating cursor" }
      else
        { db := { db1 with items := updateItemCursor itemId cursor db1.items }
          ops := [StoreOp.upsertTx transactionUpserts,
                  StoreOp.updateCursor itemId cursor]
          err := none }

/-- One page of the aggregator's delta fetch (`transactionsSync` response
fields the source reads). -/
structure TxSyncPage where
  added : List PlaidTransaction
  modified : List PlaidTransaction
  removed : List RemovedTransaction
  has_more : Bool
  next_cursor : String
deriving DecidableEq, Repr

/-- Embedding of the cursor read at the top of `syncTransactions`
(lines 127-132): a single-row select of the cursor column; a missing or
duplicated row, a null cursor, or an empty-string cursor all collapse to
`none` through the `res.data?.cursor \x7c\x7c null` expression. -/
def getStoredCursor (itemId : String) (db : Db) : Option String :=
  match db.items.filter (fun it => it.item_id == itemId) with
  | [it] =>
    match it.cursor with
    | some c => if c == "" then none else some c
    | none => none
  | _ => none

/-- Embedding of the pagination loop of `syncTransactions` (lines 140-153).
The aggregator is modelled by the list of responses it returns, in call
order (`Except.error` is a thrown fetch error).  The loop consumes one
response per iteration, accumulates the three delta sets, replaces the cursor
with the page's `next_cursor`, and stops after a page with `has_more = false`,
returning the accumulated delta and the final cursor.  A thrown fetch error
(or an exhausted response list, which only happens when no page ever clears
`has_more`) aborts the loop. -/
def syncLoop (pages : List (Except Unit TxSyncPage)) (cursor : Option String)
    (added modified : List PlaidTransaction) (removed : List String) :
    Except Unit
      (List PlaidTransaction × List PlaidTransaction × List String × String) :=
  match pages with
  | [] => Except.error ()
  | Except.error _ :: _ => Except.error ()
  | Except.ok data :: rest =>
    let added := added ++ data.added
    let modified := modified ++ data.modified
    let removed := removed ++ data.removed.map RemovedTransaction.transaction_id
    if data.has_more then
      syncLoop rest (some data.next_cursor) added modified removed
    else Except.ok (added, modified, removed, data.next_cursor)

deriving instance DecidableEq for Except

/-- Result of a top-level action: final store state, the store calls issued,
and either the returned success message or the thrown error's message. -/
structure StoreResult where
  db : Db
  ops : List StoreOp
  result : Except String String
deriving DecidableEq, Repr

/-- Embedding of `syncTransactions` (lines 121-162): read the stored cursor,
run the pagination loop, and on success apply the accumulated delta; any
error thrown inside the `try` (a page fetch or a storage step) is caught and
re-thrown as the `SyncFailed` error `"Failed to sync transactions"`. -/
def syncTransactions (fs : FailSpec) (userId itemId : String)
    (pages : List (Except Unit TxSyncPage)) (db : Db) : StoreResult :=
  let cursor := getStoredCursor itemId db
  match syncLoop pages cursor [] [] [] with
  | Except.error _ => ⟨db, [], Except.error "Failed to sync transactions"⟩
  | Except.ok (added, modified, removed, c) =>
    let res := applyTransactionUpdates fs userId itemId added modified removed c db
    match res.err with
    | none => ⟨res.db, res.ops, Except.ok "Transactions synced successfully"⟩
    | some _ => ⟨res.db, res.ops, Except.error "Failed to sync transactions"⟩

/-- Fallback of the source's `institution_name \x7c\x7c 'Unknown
Institution'` expression: an absent or empty institution name becomes the
placeholder. -/
def orUnknownInstitution (name : Option String) : String :=
  match name with
  | some n => if n == "" then "Unknown Institution" else n
  | none => "Unknown Institution"

/-- The field mapping of `storePlaidAccounts`' upsert record
(lines 69-82 of the source). -/
def accountToRow (userId : String) (item : UpdatedItem) (a : AccountBase) :
    AccountRow :=
  { user_id := userId
    item_id := item.item_id
    account_id := a.account_id
    available_balance := a.balances_available
    current_balance := a.balances_current
    currency := a.balances_iso_currency_code
    name := a.name
    official_name := a.official_name
    account_type := a.account_type
    subtype := a.subtype
    institution_id := item.institution_id
    institution_name := orUnknownInstitution item.institution_name }

/-- Embedding of `storePlaidAccounts` (lines 62-93): map every snapshot to an
account row and upsert the batch keyed on `account_id`, throwing on a storage
error. -/
def storePlaidAccounts (failUpsert : Bool) (userId : String)
    (accounts : List AccountBase) (item : UpdatedItem) (db : Db) : StoreResult :=
  let insertData := accounts.map (accountToRow userId item)
  if failUpsert then
    ⟨db, [StoreOp.upsertAccounts insertData],
      Except.error "Error inserting accounts"⟩
  else
    ⟨{ db with accounts :=
        (upsertRows AccountRow.account_id db.accounts insertData) },
      [StoreOp.upsertAccounts insertData],
      Except.ok "Successfully stored accounts"⟩

/-- Embedding of `fetchAndStoreAccounts` (lines 100-113): fetch the snapshot
(the aggregator response is pre-given, `Except.error` standing for a thrown
fetch error), store it, and re-throw any error of the `try` block as
`"Failed to fetch accounts"`. -/
def fetchAndStoreAccounts
    (fetchResult : Except Unit (List AccountBase × UpdatedItem))
    (failUpsert : Bool) (userId : String) (db : Db) : StoreResult :=
  match fetchResult with
  | Except.error _ => ⟨db, [], Except.error "Failed to fetch accounts"⟩
  | Except.ok (accounts, item) =>
    let r := storePlaidAccounts failUpsert userId accounts item db
    match r.result with
    | Except.ok m => ⟨r.db, r.ops, Except.ok m⟩
    | Except.error _ => ⟨r.db, r.ops, Except.error "Failed to fetch accounts"⟩

/-- Stream view of the pagination loop of `syncTransactions` (lines 140-153),
for the termination claim: the aggregator is an infinite stream of pages
(`f n` is the response to the `n`-th call) and the loop is run on explicit
fuel.  `none` means the fuel ran out with `has_more` still true — the source
loop itself has no iteration cap, so it stops only when a page clears
`has_more`. -/
def syncFuel (f : Nat → TxSyncPage) :
    Nat → Nat → Option String → List PlaidTransaction →
    List PlaidTransaction → List String →
    Option
      (List PlaidTransaction × List PlaidTransaction × List String × String)
  | 0, _, _, _, _, _ => none
  | fuel + 1, i, _, added, modified, removed =>
    let data := f i
    let added := added ++ data.added
    let modified := modified ++ data.modified
    let removed := removed ++ data.removed.map RemovedTransaction.transaction_id
    if data.has_more then
      syncFuel f fuel (i + 1) (some data.next_cursor) added modified removed
    else some (added, modified, removed, data.next_cursor)

/-! ### Spec-side helper views of the keyed store, used by the lemmas below -/

/-- Does some row of `rows` carry key `k`? -/
def hasKey (key : α → String) (rows : List α) (k : String) : Bool :=
  rows.any (fun r => key r == k)

/-- The last element of `batch` carrying key `k`, if any: the value a batch
upsert leaves on rows with that key. -/
def lastWith (key : α → String) (batch : List α) (k : String) : Option α :=
  List.foldl (fun acc b => if key b == k then some b else acc) none batch

/-- The net effect of a batch upsert on one existing row: replaced by the
last batch entry with its key, or left alone. -/
def overwrite (key : α → String) (batch : List α) (r : α) : α :=
  match lastWith key batch (key r) with
  | some b => b
  | none => r

/-- The rows a batch upsert appends: one per batch key that is not already
present, at its first occurrence, carrying the last value for that key. -/
def freshRows (key : α → String) (rows : List α) : List α → List α
  | [] => []
  | b :: batch =>
    if hasKey key rows (key b) then freshRows key rows batch
    else overwrite key batch b :: freshRows key (rows ++ [b]) batch

/-- Two item rows that agree on every column except possibly `cursor`. -/
def sameExceptCursor (a b : ItemRow) : Prop :=
  a.user_id = b.user_id ∧ a.access_token = b.access_token ∧
  a.item_id = b.item_id ∧ a.institution_id = b.institution_id ∧
  a.institution_name = b.institution_name

/-! ### Concrete sample data, for evaluating the theorems below -/

def sampleTx1 : PlaidTransaction :=
  ⟨"t1", "a1", 5, none, none, none, none, "coffee", none, "online", none,
    false⟩

def sampleTx2 : PlaidTransaction :=
  ⟨"t2", "a1", 7, none, none, none, none, "tea", none, "in store", none, true⟩

def samplePage1 : TxSyncPage := ⟨[sampleTx1], [], [], true, "c1"⟩

def samplePage2 : TxSyncPage :=
  ⟨[sampleTx2], [sampleTx1], [⟨"t0"⟩], false, "c2"⟩

def sampleTx1Mod : PlaidTransaction :=
  ⟨"t1", "a1", 9, none, none, none, none, "espresso", none, "online", none,
    false⟩

def sampleItem : ItemRow := ⟨"u1", "tok", "item1", none, "Bank", some "c0"⟩

def sampleDb : Db := ⟨[sampleItem], [], []⟩

def emptyDb : Db := ⟨[], [], []⟩

def sampleAccount : AccountBase :=
  ⟨"acct1", some 100, some 90, some "USD", "Checking", none, "depository",
    some "checking"⟩

def sampleUpdatedItem : UpdatedItem := ⟨"item1", some "ins1", some "Bank"⟩

/-! ### Lemma kit for the keyed upsert -/

theorem lastWith_foldl (key : α → String) (k : String) (B : List α) :
    ∀ a : Option α,
      List.foldl (fun acc b => if key b == k then some b else acc) a B =
        match lastWith key B k with
        | some x => some x
        | none => a := by
  induction B with
  | nil => intro a; simp [lastWith]
  | cons b B ih =>
    intro a
    have h2 : lastWith key (b :: B) k =
        match lastWith key B k with
        | some x => some x
        | none => if key b == k then some b else none :=
      ih (if key b == k then some b else none)
    show List.foldl _ (if key b == k then some b else a) B = _
    rw [ih, h2]
    cases lastWith key B k with
    | some x => rfl
    | none => by_cases h : key b == k <;> simp [h]

theorem lastWith_cons (key : α → String) (k : String) (b : α) (B : List α) :
    lastWith key (b :: B) k =
      match lastWith key B k with
      | some x => some x
      | none => if key b == k then some b else none := by
  show List.foldl _ (if key b == k then some b else none) B = _
  rw [lastWith_foldl]

theorem lastWith_mem (key : α → String) (k : String) (B : List α) (b : α)
    (h : lastWith key B k = some b) : b ∈ B ∧ key b = k := by
  induction B with
  | nil => simp [lastWith] at h
  | cons x B ih =>
    rw [lastWith_cons] at h
    cases hB : lastWith key B k with
    | some y =>
      rw [hB] at h
      obtain ⟨hm, hk⟩ := ih (hB.trans (by rw [← h]))
      exact ⟨List.mem_cons_of_mem _ hm, hk⟩
    | none =>
      rw [hB] at h
      by_cases hx : key x == k
      · simp [hx] at h
        subst h
        exact ⟨List.mem_cons_self _ _, by simpa using hx⟩
      · simp [hx] at h

theorem hasKey_of_lastWith (key : α → String) {k : String} {B : List α} {b : α}
    (h : lastWith key B k = some b) : hasKey key B k = true := by
  obtain ⟨hm, hk⟩ := lastWith_mem key k B b h
  simp only [hasKey, List.any_eq_true]
  exact ⟨b, hm, by simp [hk]⟩

theorem lastWith_of_not_hasKey (key : α → String) {k : String} {B : List α}
    (h : hasKey key B k = false) : lastWith key B k = none := by
  cases hl : lastWith key B k with
  | none => rfl
  | some b => rw [hasKey_of_lastWith key hl] at h; cases h

theorem hasKey_false_of_lastWith_none (key : α → String) {k : String}
    {B : List α} (h : lastWith key B k = none) : hasKey key B k = false := by
  induction B with
  | nil => simp [hasKey]
  | cons b B ih =>
    rw [lastWith_cons] at h
    cases hB : lastWith key B k with
    | some y => rw [hB] at h; cases h
    | none =>
      rw [hB] at h
      by_cases hb : key b == k
      · rw [if_pos hb] at h; cases h
      · have hBf := ih hB
        simp only [hasKey, List.any_cons, Bool.or_eq_false_iff]
        exact ⟨by simpa using hb, hBf⟩

theorem lastWith_isSome_of_hasKey (key : α → String) {k : String} {B : List α}
    (h : hasKey key B k = true) : ∃ b, lastWith key B k = some b := by
  cases hl : lastWith key B k with
  | some b => exact ⟨b, rfl⟩
  | none => rw [hasKey_false_of_lastWith_none key hl] at h; cases h

theorem lastWith_append (key : α → String) (k : String) (X Y : List α) :
    lastWith key (X ++ Y) k =
      match lastWith key Y k with
      | some b => some b
      | none => lastWith key X k := by
  show List.foldl _ none (X ++ Y) = _
  rw [List.foldl_append]
  show List.foldl _ (lastWith key X k) Y = _
  rw [lastWith_foldl]

theorem key_overwrite (key : α → String) (B : List α) (r : α) :
    key (overwrite key B r) = key r := by
  unfold overwrite
  cases h : lastWith key B (key r) with
  | some b => exact (lastWith_mem key (key r) B b h).2
  | none => rfl

theorem overwrite_nil (key : α → String) (r : α) :
    overwrite key [] r = r := rfl

theorem overwrite_cons (key : α → String) (b : α) (B : List α) (r : α) :
    overwrite key (b :: B) r =
      overwrite key B (if key r == key b then b else r) := by
  unfold overwrite
  rw [lastWith_cons]
  by_cases h : key r == key b
  · have hk : key r = key b := by simpa using h
    rw [if_pos h, hk]
    cases lastWith key B (key b) <;> simp
  · have hk : ¬ key b == key r := by
      simp at h ⊢
      exact fun hh => h hh.symm
    rw [if_neg h]
    cases lastWith key B (key r) with
    | some x => simp
    | none => simp [hk]

theorem overwrite_overwrite (key : α → String) (B : List α) (r : α) :
    overwrite key B (overwrite key B r) = overwrite key B r := by
  cases h : lastWith key B (key r) with
  | none =>
    have h1 : overwrite key B r = r := by unfold overwrite; rw [h]
    rw [h1]
    exact h1
  | some b =>
    have h1 : overwrite key B r = b := by unfold overwrite; rw [h]
    have hk : key b = key r := (lastWith_mem key (key r) B b h).2
    rw [h1]
    show overwrite key B b = b
    unfold overwrite
    rw [hk, h]

theorem hasKey_cons (key : α → String) (b : α) (B : List α) (k : String) :
    hasKey key (b :: B) k = ((key b == k) || hasKey key B k) := by
  simp [hasKey]

theorem hasKey_append_single (key : α → String) (L : List α) (b : α)
    (k : String) :
    hasKey key (L ++ [b]) k = (hasKey key L k || (key b == k)) := by
  simp [hasKey]

theorem hasKey_map_of_key_eq (key : α → String) (f : α → α)
    (hf : ∀ r, key (f r) = key r) (L : List α) (k : String) :
    hasKey key (L.map f) k = hasKey key L k := by
  simp only [hasKey, List.any_map]
  congr 1
  funext r
  simp [Function.comp, hf]

theorem hasKey_of_mem (key : α → String) {L : List α} {r : α} (h : r ∈ L) :
    hasKey key L (key r) = true := by
  simp only [hasKey, List.any_eq_true]
  exact ⟨r, h, by simp⟩

theorem freshRows_congr (key : α → String) (B : List α) :
    ∀ L₁ L₂ : List α, (∀ k, hasKey key L₁ k = hasKey key L₂ k) →
      freshRows key L₁ B = freshRows key L₂ B := by
  induction B with
  | nil => intro L₁ L₂ h; rfl
  | cons b B ih =>
    intro L₁ L₂ h
    rw [freshRows, freshRows, h (key b)]
    by_cases hk : hasKey key L₂ (key b)
    · simp only [if_pos hk]
      exact ih L₁ L₂ h
    · simp only [if_neg hk]
      have h2 : ∀ k, hasKey key (L₁ ++ [b]) k = hasKey key (L₂ ++ [b]) k := by
        intro k
        rw [hasKey_append_single, hasKey_append_single, h k]
      rw [ih (L₁ ++ [b]) (L₂ ++ [b]) h2]

theorem mem_freshRows (key : α → String) (B : List α) :
    ∀ (L : List α) (m : α), m ∈ freshRows key L B →
      hasKey key L (key m) = false ∧ overwrite key B m = m ∧
        hasKey key B (key m) = true := by
  induction B with
  | nil => intro L m h; cases h
  | cons b B ih =>
    intro L m h
    by_cases hb : hasKey key L (key b)
    · have h' : m ∈ freshRows key L B := by
        simpa [freshRows, hb] using h
      obtain ⟨hL, hov, hB⟩ := ih L m h'
      have hmb : ¬ key m == key b := by
        intro hc
        have : key m = key b := by simpa using hc
        rw [← this] at hb
        rw [hb] at hL
        cases hL
      refine ⟨hL, ?_, ?_⟩
      · rw [overwrite_cons, if_neg hmb]
        exact hov
      · rw [hasKey_cons]
        simp [hB]
    · have h' : m = overwrite key B b ∨ m ∈ freshRows key (L ++ [b]) B := by
        simpa [freshRows, hb] using h
      rcases h' with h1 | h1
      · have hkm : key m = key b := by rw [h1]; exact key_overwrite key B b
        refine ⟨by rw [hkm]; simpa using hb, ?_, ?_⟩
        · rw [overwrite_cons, if_pos (by simp [hkm]), h1]
        · rw [hasKey_cons]
          simp [hkm]
      · obtain ⟨hL, hov, hB⟩ := ih (L ++ [b]) m h1
        rw [hasKey_append_single, Bool.or_eq_false_iff] at hL
        have hmb : ¬ key m == key b := by
          intro hc
          have : key b == key m := by
            have : key m = key b := by simpa using hc
            simp [this]
          rw [this] at hL
          cases hL.2
        refine ⟨hL.1, ?_, ?_⟩
        · rw [overwrite_cons, if_neg hmb]
          exact hov
        · rw [hasKey_cons]
          simp [hB]

theorem upsertRows_closed_form (key : α → String) (B : List α) :
    ∀ L : List α,
      upsertRows key L B = L.map (overwrite key B) ++ freshRows key L B := by
  induction B with
  | nil =>
    intro L
    show L = L.map (overwrite key []) ++ []
    simp only [List.append_nil]
    have : ∀ r ∈ L, overwrite key [] r = id r := fun r _ => overwrite_nil key r
    rw [List.map_congr_left this, List.map_id]
  | cons b B ih =>
    intro L
    show upsertRows key (upsertOne key L b) B = _
    rw [ih]
    by_cases hb : hasKey key L (key b)
    · have hone : upsertOne key L b =
          L.map (fun r => if key r == key b then b else r) := by
        unfold upsertOne
        rw [if_pos (by simpa [hasKey] using hb)]
      rw [hone]
      have hmap : (L.map (fun r => if key r == key b then b else r)).map
          (overwrite key B) = L.map (overwrite key (b :: B)) := by
        rw [List.map_map]
        apply List.map_congr_left
        intro r _
        show overwrite key B (if key r == key b then b else r) = _
        rw [overwrite_cons]
      rw [hmap]
      have hfresh : freshRows key
          (L.map (fun r => if key r == key b then b else r)) B =
            freshRows key L (b :: B) := by
        have hkeys : ∀ r, key (if key r == key b then b else r) = key r := by
          intro r
          by_cases h : key r == key b
          · rw [if_pos h]; have := (beq_iff_eq).mp h; rw [this]
          · rw [if_neg h]
        have := freshRows_congr key B
          (L.map (fun r => if key r == key b then b else r)) L
          (fun k => hasKey_map_of_key_eq key _ hkeys L k)
        rw [this]
        show _ = (if hasKey key L (key b) then _ else _)
        rw [if_pos hb]
      rw [hfresh]
    · have hone : upsertOne key L b = L ++ [b] := by
        unfold upsertOne
        rw [if_neg (by simpa [hasKey] using hb)]
      rw [hone, List.map_append]
      have hmapL : L.map (overwrite key B) = L.map (overwrite key (b :: B)) := by
        apply List.map_congr_left
        intro r hr
        have hrb : ¬ key r == key b := by
          intro hc
          have h1 : key r = key b := by simpa using hc
          have := hasKey_of_mem key hr
          rw [h1] at this
          rw [this] at hb
          exact hb rfl
        rw [overwrite_cons, if_neg hrb]
      rw [hmapL]
      have hcons : freshRows key L (b :: B) =
          overwrite key B b :: freshRows key (L ++ [b]) B := by
        show (if hasKey key L (key b) then _ else _) = _
        rw [if_neg hb]
      rw [hcons]
      simp [List.append_assoc]

theorem hasKey_freshRows (key : α → String) (B : List α) :
    ∀ (L : List α) (k : String),
      hasKey key (freshRows key L B) k =
        (hasKey key B k && !(hasKey key L k)) := by
  induction B with
  | nil => intro L k; simp [freshRows, hasKey]
  | cons b B ih =>
    intro L k
    rw [freshRows, hasKey_cons]
    by_cases hb : hasKey key L (key b)
    · rw [if_pos hb, ih L k]
      by_cases hk : key b == k
      · have : hasKey key L k = true := by
          have h1 : key b = k := by simpa using hk
          rw [← h1]; exact hb
        simp [this]
      · simp [hk]
    · rw [if_neg hb]
      rw [hasKey_cons, key_overwrite key B b, ih (L ++ [b]) k,
        hasKey_append_single]
      by_cases hk : key b == k
      · have h1 : key b = k := by simpa using hk
        have : hasKey key L k = false := by
          rw [← h1]; simpa using hb
        simp [hk, this]
      · simp [hk]

theorem hasKey_append (key : α → String) (X Y : List α) (k : String) :
    hasKey key (X ++ Y) k = (hasKey key X k || hasKey key Y k) := by
  simp [hasKey]

theorem hasKey_upsertRows (key : α → String) (L B : List α) (k : String) :
    hasKey key (upsertRows key L B) k = (hasKey key L k || hasKey key B k) := by
  rw [upsertRows_closed_form, hasKey_append,
    hasKey_map_of_key_eq key (overwrite key B) (key_overwrite key B) L k,
    hasKey_freshRows]
  cases hL : hasKey key L k <;> cases hB : hasKey key B k <;> rfl

theorem freshRows_nil_of_keys_present (key : α → String) (B : List α) :
    ∀ M : List α, (∀ b ∈ B, hasKey key M (key b) = true) →
      freshRows key M B = [] := by
  induction B with
  | nil => intro M h; rfl
  | cons b B ih =>
    intro M h
    rw [freshRows, if_pos (h b (List.mem_cons_self b B))]
    exact ih M (fun x hx => h x (List.mem_cons_of_mem b hx))

theorem overwrite_fixed_of_mem_upsertRows (key : α → String) {L B : List α}
    {m : α} (h : m ∈ upsertRows key L B) : overwrite key B m = m := by
  rw [upsertRows_closed_form] at h
  rcases List.mem_append.mp h with h1 | h1
  · obtain ⟨r, _, hr⟩ := List.mem_map.mp h1
    rw [← hr]
    exact overwrite_overwrite key B r
  · exact (mem_freshRows key B L m h1).2.1

theorem map_overwrite_fixed (key : α → String) {B M : List α}
    (h : ∀ m ∈ M, overwrite key B m = m) : M.map (overwrite key B) = M := by
  have h1 : ∀ m ∈ M, overwrite key B m = id m := h
  rw [List.map_congr_left h1, List.map_id]

theorem upsertRows_idem (key : α → String) (L B : List α) :
    upsertRows key (upsertRows key L B) B = upsertRows key L B := by
  rw [upsertRows_closed_form key B (upsertRows key L B)]
  have h1 : freshRows key (upsertRows key L B) B = [] := by
    apply freshRows_nil_of_keys_present
    intro b hb
    rw [hasKey_upsertRows]
    simp [hasKey_of_mem key hb]
  rw [h1, List.append_nil]
  exact map_overwrite_fixed key
    (fun m hm => overwrite_fixed_of_mem_upsertRows key hm)

theorem hasKey_filter (key : α → String) (p : String → Bool) (M : List α)
    (k : String) :
    hasKey key (M.filter (fun r => p (key r))) k = (hasKey key M k && p k) := by
  induction M with
  | nil => simp [hasKey]
  | cons m M ih =>
    rw [hasKey_cons]
    by_cases hm : p (key m)
    · rw [List.filter_cons_of_pos (by simpa using hm), hasKey_cons, ih]
      by_cases hk : key m == k
      · have h1 : key m = k := by simpa using hk
        rw [h1] at hm
        simp [hk, hm]
      · simp [hk]
    · rw [List.filter_cons_of_neg (by simpa using hm), ih]
      by_cases hk : key m == k
      · have h1 : key m = k := by simpa using hk
        rw [h1] at hm
        cases hpk : p k
        · simp [hpk]
        · rw [hpk] at hm; cases hm rfl
      · simp [hk]

theorem filter_upsertRows_filter (key : α → String) (p : String → Bool)
    (L B : List α) :
    List.filter (fun r => p (key r))
        (upsertRows key
          (List.filter (fun r => p (key r)) (upsertRows key L B)) B) =
      List.filter (fun r => p (key r)) (upsertRows key L B) := by
  set M := upsertRows key L B with hM
  set M' := List.filter (fun r => p (key r)) M with hM'
  rw [upsertRows_closed_form key B M']
  rw [List.filter_append]
  have hfix : ∀ m ∈ M', overwrite key B m = m := by
    intro m hm
    exact overwrite_fixed_of_mem_upsertRows key (List.mem_filter.mp hm).1
  rw [map_overwrite_fixed key hfix]
  have hMM : M'.filter (fun r => p (key r)) = M' := by
    rw [hM']
    rw [List.filter_filter]
    apply List.filter_congr
    intro a _
    cases p (key a) <;> rfl
  rw [hMM]
  have hfresh : (freshRows key M' B).filter (fun r => p (key r)) = [] := by
    rw [List.filter_eq_nil_iff]
    intro m hm
    obtain ⟨hL, hov, hB⟩ := mem_freshRows key B M' m hm
    rw [hM'] at hL
    rw [hasKey_filter] at hL
    have hMk : hasKey key M (key m) = true := by
      rw [hM, hasKey_upsertRows]
      simp [hB]
    rw [hMk] at hL
    simp only [Bool.true_and] at hL
    simp [hL]
  rw [hfresh, List.append_nil]

theorem exists_mem_of_hasKey (key : α → String) {M : List α} {k : String}
    (h : hasKey key M k = true) : ∃ r ∈ M, key r = k := by
  simp only [hasKey, List.any_eq_true] at h
  obtain ⟨r, hr, hk⟩ := h
  exact ⟨r, hr, by simpa using hk⟩

theorem mem_upsertRows_value (key : α → String) {L B : List α} {m b : α}
    (hm : m ∈ upsertRows key L B) (hb : lastWith key B (key m) = some b) :
    m = b := by
  have h1 := overwrite_fixed_of_mem_upsertRows key hm
  unfold overwrite at h1
  rw [hb] at h1
  exact h1.symm

theorem filter_map_key_preserving (key : α → String) (q : String → Bool)
    (f : α → α) (hf : ∀ r, key (f r) = key r) (L : List α) :
    (L.map f).filter (fun r => q (key r)) =
      (L.filter (fun r => q (key r))).map f := by
  induction L with
  | nil => rfl
  | cons m L ih =>
    show (f m :: L.map f).filter _ = _
    by_cases hq : q (key m)
    · rw [List.filter_cons_of_pos (by simpa [hf] using hq),
        List.filter_cons_of_pos (by simpa using hq)]
      show f m :: _ = f m :: _
      rw [ih]
    · rw [List.filter_cons_of_neg (by simpa [hf] using hq),
        List.filter_cons_of_neg (by simpa using hq)]
      exact ih

theorem filter_upsertRows_of_keys_false (key : α → String) (q : String → Bool)
    (L B : List α) (hq : ∀ b ∈ B, q (key b) = false) :
    (upsertRows key L B).filter (fun r => q (key r)) =
      L.filter (fun r => q (key r)) := by
  rw [upsertRows_closed_form, List.filter_append]
  have hfresh : (freshRows key L B).filter (fun r => q (key r)) = [] := by
    rw [List.filter_eq_nil_iff]
    intro m hm
    obtain ⟨_, _, hB⟩ := mem_freshRows key B L m hm
    obtain ⟨b, hbmem, hbk⟩ := exists_mem_of_hasKey key hB
    have := hq b hbmem
    rw [hbk] at this
    simp [this]
  rw [hfresh, List.append_nil]
  rw [filter_map_key_preserving key q (overwrite key B) (key_overwrite key B)]
  apply map_overwrite_fixed
  intro m hm
  obtain ⟨hmem, hqm⟩ := List.mem_filter.mp hm
  have hnk : hasKey key B (key m) = false := by
    cases hB : hasKey key B (key m)
    · rfl
    · obtain ⟨b, hbmem, hbk⟩ := exists_mem_of_hasKey key hB
      have := hq b hbmem
      rw [hbk] at this
      rw [this] at hqm
      cases hqm
  unfold overwrite
  rw [lastWith_of_not_hasKey key hnk]

theorem filter_filter_of_imp (key : α → String) (q : String → Bool)
    (P : α → Bool) (X : List α) (h : ∀ r, q (key r) = true → P r = true) :
    (X.filter P).filter (fun r => q (key r)) =
      X.filter (fun r => q (key r)) := by
  rw [List.filter_filter]
  apply List.filter_congr
  intro r _
  cases hq : q (key r)
  · rfl
  · rw [h r hq]
    rfl

theorem updateItemCursor_idem (itemId cursor : String) (items : List ItemRow) :
    updateItemCursor itemId cursor (updateItemCursor itemId cursor items) =
      updateItemCursor itemId cursor items := by
  unfold updateItemCursor
  rw [List.map_map]
  apply List.map_congr_left
  intro it _
  simp only [Function.comp]
  by_cases h : it.item_id == itemId
  · simp [h]
  · simp [h]

theorem updateItemCursor_of_no_match (itemId cursor : String)
    (items : List ItemRow) (h : ∀ it ∈ items, ¬ it.item_id = itemId) :
    updateItemCursor itemId cursor items = items := by
  unfold updateItemCursor
  have h1 : ∀ it ∈ items,
      (if it.item_id == itemId then { it with cursor := some cursor } else it) =
        id it := by
    intro it hit
    rw [if_neg (by simpa using h it hit)]
    rfl
  rw [List.map_congr_left h1, List.map_id]

theorem updateItemCursor_length (itemId cursor : String)
    (items : List ItemRow) :
    (updateItemCursor itemId cursor items).length = items.length :=
  List.length_map items _

theorem updateItemCursor_get (itemId cursor : String) (items : List ItemRow)
    (i : Nat) (h1 : i < items.length)
    (h2 : i < (updateItemCursor itemId cursor items).length) :
    (updateItemCursor itemId cursor items).get ⟨i, h2⟩ =
      (if (items.get ⟨i, h1⟩).item_id == itemId then
        { items.get ⟨i, h1⟩ with cursor := some cursor }
      else items.get ⟨i, h1⟩) := by
  unfold updateItemCursor at h2 ⊢
  simp [List.get_eq_getElem, List.getElem_map]

theorem syncLoop_pages_ok (last : TxSyncPage) (hlast : last.has_more = false) :
    ∀ init : List TxSyncPage, (∀ p ∈ init, p.has_more = true) →
      ∀ (c : Option String) (a m : List PlaidTransaction) (r : List String),
        syncLoop ((init ++ [last]).map Except.ok) c a m r =
          Except.ok
            (a ++ (init ++ [last]).flatMap TxSyncPage.added,
             m ++ (init ++ [last]).flatMap TxSyncPage.modified,
             r ++ ((init ++ [last]).flatMap TxSyncPage.removed).map
                 RemovedTransaction.transaction_id,
             last.next_cursor) := by
  intro init
  induction init with
  | nil =>
    intro _ c a m r
    show syncLoop [Except.ok last] c a m r = _
    simp [syncLoop, hlast]
  | cons p init ih =>
    intro hinit c a m r
    have hp : p.has_more = true := hinit p (List.mem_cons_self p init)
    show syncLoop (Except.ok p :: (init ++ [last]).map Except.ok) c a m r = _
    rw [syncLoop]
    simp only [hp, if_true]
    rw [ih (fun q hq => hinit q (List.mem_cons_of_mem p hq))]
    simp [List.append_assoc]

theorem syncLoop_fetch_error (ps : List TxSyncPage)
    (hps : ∀ p ∈ ps, p.has_more = true) :
    ∀ (rest : List (Except Unit TxSyncPage)) (c : Option String)
      (a m : List PlaidTransaction) (r : List String),
      syncLoop (ps.map Except.ok ++ Except.error () :: rest) c a m r =
        Except.error () := by
  induction ps with
  | nil => intro rest c a m r; rfl
  | cons p ps ih =>
    intro rest c a m r
    have hp : p.has_more = true := hps p (List.mem_cons_self p ps)
    show syncLoop (Except.ok p :: (ps.map Except.ok ++ Except.error () :: rest))
      c a m r = _
    rw [syncLoop]
    simp only [hp, if_true]
    exact ih (fun q hq => hps q (List.mem_cons_of_mem p hq)) rest _ _ _ _

theorem syncFuel_succ (f : Nat → TxSyncPage) (fuel i : Nat)
    (c : Option String) (a m : List PlaidTransaction) (r : List String) :
    syncFuel f (fuel + 1) i c a m r =
      if (f i).has_more then
        syncFuel f fuel (i + 1) (some (f i).next_cursor) (a ++ (f i).added)
          (m ++ (f i).modified)
          (r ++ ((f i).removed).map RemovedTransaction.transaction_id)
      else
        some (a ++ (f i).added, m ++ (f i).modified,
          r ++ ((f i).removed).map RemovedTransaction.transaction_id,
          (f i).next_cursor) := rfl

theorem syncFuel_terminates (f : Nat → TxSyncPage) :
    ∀ (fuel j i : Nat), (f (i + j)).has_more = false → j < fuel →
      ∀ (c : Option String) (a m : List PlaidTransaction) (r : List String),
        ∃ out, syncFuel f fuel i c a m r = some out := by
  intro fuel
  induction fuel with
  | zero => intro j i _ hj; exact absurd hj (Nat.not_lt_zero j)
  | succ n ih =>
    intro j i hdone hj c a m r
    rw [syncFuel_succ]
    cases hi : (f i).has_more with
    | false =>
      rw [if_neg Bool.false_ne_true]
      exact ⟨_, rfl⟩
    | true =>
      rw [if_pos rfl]
      cases j with
      | zero =>
        rw [Nat.add_zero] at hdone
        rw [hdone] at hi
        cases hi
      | succ j' =>
        have hdone' : (f ((i + 1) + j')).has_more = false := by
          have heq : (i + 1) + j' = i + (j' + 1) := by omega
          rw [heq]
          exact hdone
        exact ih j' (i + 1) hdone' (Nat.lt_of_succ_lt_succ hj) _ _ _ _

theorem syncFuel_spins_forever (f : Nat → TxSyncPage)
    (h : ∀ n, (f n).has_more = true) :
    ∀ (fuel i : Nat) (c : Option String) (a m : List PlaidTransaction)
      (r : List String), syncFuel f fuel i c a m r = none := by
  intro fuel
  induction fuel with
  | zero => intro i c a m r; rfl
  | succ n ih =>
    intro i c a m r
    rw [syncFuel_succ, if_pos (h i)]
    exact ih (i + 1) _ _ _ _

theorem apply_noFail_removed_nil (u itemId : String)
    (added modified : List PlaidTransaction) (cursor : String) (db : Db) :
    applyTransactionUpdates noFail u itemId added modified [] cursor db =
      { db := { db with
          transactions := (upsertRows TransactionRow.transaction_id
            db.transactions ((added ++ modified).map (txToRow u))),
          items := updateItemCursor itemId cursor db.items },
        ops := [StoreOp.upsertTx ((added ++ modified).map (txToRow u)),
                StoreOp.updateCursor itemId cursor],
        err := none } := rfl

theorem apply_noFail_removed_pos (u itemId : String)
    (added modified : List PlaidTransaction) (removed : List String)
    (cursor : String) (db : Db) (h : removed.length > 0) :
    applyTransactionUpdates noFail u itemId added modified removed cursor db =
      { db := { db with
          transactions := deleteByIds removed
            (upsertRows TransactionRow.transaction_id db.transactions
              ((added ++ modified).map (txToRow u))),
          items := updateItemCursor itemId cursor db.items },
        ops := [StoreOp.upsertTx ((added ++ modified).map (txToRow u)),
                StoreOp.deleteTx removed,
                StoreOp.updateCursor itemId cursor],
        err := none } := by
  unfold applyTransactionUpdates
  rw [if_neg (by exact Bool.false_ne_true), if_pos h,
    if_neg (by exact Bool.false_ne_true), if_neg (by exact Bool.false_ne_true)]

theorem apply_noFail_transactions (u itemId : String)
    (a mo : List PlaidTransaction) (rem : List String) (c : String)
    (db : Db) :
    (applyTransactionUpdates noFail u itemId a mo rem c db).db.transactions =
      deleteByIds rem (upsertRows TransactionRow.transaction_id
        db.transactions ((a ++ mo).map (txToRow u))) := by
  by_cases hpos : rem.length > 0
  · rw [apply_noFail_removed_pos u itemId a mo rem c db hpos]
  · have h0 : rem = [] := by
      cases rem with
      | nil => rfl
      | cons x xs => exact absurd (Nat.succ_pos xs.length) hpos
    subst h0
    rw [apply_noFail_removed_nil u itemId a mo c db]
    exact (List.filter_eq_self.mpr (fun r _ => rfl)).symm

theorem apply_noFail_err (u itemId : String) (a mo : List PlaidTransaction)
    (rem : List String) (c : String) (db : Db) :
    (applyTransactionUpdates noFail u itemId a mo rem c db).err = none := by
  by_cases hpos : rem.length > 0
  · rw [apply_noFail_removed_pos u itemId a mo rem c db hpos]
  · have h0 : rem = [] := by
      cases rem with
      | nil => rfl
      | cons x xs => exact absurd (Nat.succ_pos xs.length) hpos
    subst h0
    rw [apply_noFail_removed_nil u itemId a mo c db]

theorem apply_noFail_items (u itemId : String) (a mo : List PlaidTransaction)
    (rem : List String) (c : String) (db : Db) :
    (applyTransactionUpdates noFail u itemId a mo rem c db).db.items =
      updateItemCursor itemId c db.items := by
  by_cases hpos : rem.length > 0
  · rw [apply_noFail_removed_pos u itemId a mo rem c db hpos]
  · have h0 : rem = [] := by
      cases rem with
      | nil => rfl
      | cons x xs => exact absurd (Nat.succ_pos xs.length) hpos
    subst h0
    rw [apply_noFail_removed_nil u itemId a mo c db]

theorem sameExceptCursor_refl (a : ItemRow) : sameExceptCursor a a :=
  ⟨rfl, rfl, rfl, rfl, rfl⟩

theorem apply_db_cases (fs : FailSpec) (u itemId : String)
    (a mo : List PlaidTransaction) (rem : List String) (c : String)
    (db : Db) :
    ((applyTransactionUpdates fs u itemId a mo rem c db).db.accounts =
        db.accounts)
    ∧ ((applyTransactionUpdates fs u itemId a mo rem c db).db.transactions =
          db.transactions ∨
        (applyTransactionUpdates fs u itemId a mo rem c db).db.transactions =
          upsertRows TransactionRow.transaction_id db.transactions
            ((a ++ mo).map (txToRow u)) ∨
        (applyTransactionUpdates fs u itemId a mo rem c db).db.transactions =
          deleteByIds rem (upsertRows TransactionRow.transaction_id
            db.transactions ((a ++ mo).map (txToRow u))))
    ∧ ((applyTransactionUpdates fs u itemId a mo rem c db).db.items =
          db.items ∨
        (applyTransactionUpdates fs u itemId a mo rem c db).db.items =
          updateItemCursor itemId c db.items)
    ∧ (rem = [] → ∀ ids, ¬ StoreOp.deleteTx ids ∈
        (applyTransactionUpdates fs u itemId a mo rem c db).ops) := by
  obtain ⟨fu, fd, fc⟩ := fs
  cases rem with
  | nil =>
    cases fu <;> cases fd <;> cases fc <;> simp [applyTransactionUpdates]
  | cons r rs =>
    cases fu <;> cases fd <;> cases fc <;> simp [applyTransactionUpdates]

theorem filter_tx_frame (footprint : List String)
    (a mo : List PlaidTransaction) (u : String) (T : List TransactionRow)
    (hfoot : ∀ t ∈ a ++ mo, footprint.contains t.transaction_id = true) :
    (upsertRows TransactionRow.transaction_id T
        ((a ++ mo).map (txToRow u))).filter
        (fun r => !(footprint.contains r.transaction_id)) =
      T.filter (fun r => !(footprint.contains r.transaction_id)) := by
  apply filter_upsertRows_of_keys_false TransactionRow.transaction_id
    (fun k => !(footprint.contains k))
  intro b hb
  obtain ⟨t, ht, hbt⟩ := List.mem_map.mp hb
  have : TransactionRow.transaction_id b = t.transaction_id := by
    rw [← hbt]
    rfl
  rw [this, hfoot t ht]
  rfl

theorem filter_delete_frame (footprint rem : List String)
    (X : List TransactionRow)
    (hsub : ∀ k : String, rem.contains k = true →
      footprint.contains k = true) :
    (deleteByIds rem X).filter
        (fun r => !(footprint.contains r.transaction_id)) =
      X.filter (fun r => !(footprint.contains r.transaction_id)) := by
  apply filter_filter_of_imp TransactionRow.transaction_id
    (fun k => !(footprint.contains k))
  intro r hq
  cases hc : rem.contains (TransactionRow.transaction_id r)
  · rfl
  · rw [hsub _ hc] at hq
    cases hq

theorem sync_pages_noFail (userId itemId : String) (init : List TxSyncPage)
    (last : TxSyncPage) (db : Db) (hinit : ∀ p ∈ init, p.has_more = true)
    (hlast : last.has_more = false) :
    syncTransactions noFail userId itemId ((init ++ [last]).map Except.ok)
        db =
      ⟨(applyTransactionUpdates noFail userId itemId
          ((init ++ [last]).flatMap TxSyncPage.added)
          ((init ++ [last]).flatMap TxSyncPage.modified)
          (((init ++ [last]).flatMap TxSyncPage.removed).map
            RemovedTransaction.transaction_id)
          last.next_cursor db).db,
        (applyTransactionUpdates noFail userId itemId
          ((init ++ [last]).flatMap TxSyncPage.added)
          ((init ++ [last]).flatMap TxSyncPage.modified)
          (((init ++ [last]).flatMap TxSyncPage.removed).map
            RemovedTransaction.transaction_id)
          last.next_cursor db).ops,
        Except.ok "Transactions synced successfully"⟩ := by
  unfold syncTransactions
  simp only [syncLoop_pages_ok last hlast init hinit]
  simp [apply_noFail_err]

/-! ### The claims -/

/-- C1: for every sequence of delta pages whose final page has
`has_more = false` (and every earlier page `has_more = true`, so the whole
sequence is consumed), the pagination loop of `syncTransactions` returns the
concatenation, in fetch order, of every page's added, modified and removed
sets (removed projected to transaction identifiers), together with the last
page's `next_cursor`; and `syncTransactions` passes exactly this accumulated
delta and cursor to the apply/commit step. -/
theorem syncLoop_accumulates_concat_and_final_cursor
    (init : List TxSyncPage) (last : TxSyncPage) (c0 : Option String)
    (hinit : ∀ p ∈ init, p.has_more = true) (hlast : last.has_more = false) :
    syncLoop ((init ++ [last]).map Except.ok) c0 [] [] [] =
      Except.ok
        ((init ++ [last]).flatMap TxSyncPage.added,
         (init ++ [last]).flatMap TxSyncPage.modified,
         ((init ++ [last]).flatMap TxSyncPage.removed).map
             RemovedTransaction.transaction_id,
         last.next_cursor)
    ∧ ∀ (fs : FailSpec) (userId itemId : String) (db : Db),
        syncTransactions fs userId itemId ((init ++ [last]).map Except.ok)
            db =
          (let res := applyTransactionUpdates fs userId itemId
              ((init ++ [last]).flatMap TxSyncPage.added)
              ((init ++ [last]).flatMap TxSyncPage.modified)
              (((init ++ [last]).flatMap TxSyncPage.removed).map
                RemovedTransaction.transaction_id)
              last.next_cursor db
           match res.err with
           | none =>
             ⟨res.db, res.ops, Except.ok "Transactions synced successfully"⟩
           | some _ =>
             ⟨res.db, res.ops, Except.error "Failed to sync transactions"⟩) := by
  constructor
  · have h1 := syncLoop_pages_ok last hlast init hinit c0 [] [] []
    simpa using h1
  · intro fs userId itemId db
    unfold syncTransactions
    simp only [syncLoop_pages_ok last hlast init hinit]
    simp

/-- Concrete evaluation of `syncLoop_accumulates_concat_and_final_cursor` on
a two-page sequence. -/
theorem syncLoop_accumulates_concat_and_final_cursor_witness :
    syncLoop (([samplePage1] ++ [samplePage2]).map Except.ok) none [] [] [] =
      Except.ok
        (([samplePage1] ++ [samplePage2]).flatMap TxSyncPage.added,
         ([samplePage1] ++ [samplePage2]).flatMap TxSyncPage.modified,
         (([samplePage1] ++ [samplePage2]).flatMap TxSyncPage.removed).map
             RemovedTransaction.transaction_id,
         samplePage2.next_cursor) :=
  (syncLoop_accumulates_concat_and_final_cursor [samplePage1] samplePage2
    none (by intro p hp; simp at hp; rw [hp]; rfl) rfl).1

/-- C2: delta application either succeeds in all of its steps (upsert, delete
when the removed set is non-empty, cursor commit), or the item rows — and in
particular the stored cursor — are left at their pre-sync value and an error
is reported; moreover, when the upsert or the delete step fails, no cursor
update is issued at all. -/
theorem applyTransactionUpdates_cursor_only_on_full_success
    (fs : FailSpec) (userId itemId : String)
    (added modified : List PlaidTransaction) (removed : List String)
    (cursor : String) (db : Db) :
    ((applyTransactionUpdates fs userId itemId added modified removed cursor
        db).err = none ↔
      fs.upsert = false ∧ (removed ≠ [] → fs.del = false) ∧
        fs.cursorCommit = false)
    ∧ ((applyTransactionUpdates fs userId itemId added modified removed
        cursor db).err ≠ none →
      (applyTransactionUpdates fs userId itemId added modified removed
        cursor db).db.items = db.items)
    ∧ ((fs.upsert = true ∨ (fs.del = true ∧ removed ≠ [])) →
      ∀ i c : String, ¬ StoreOp.updateCursor i c ∈
        (applyTransactionUpdates fs userId itemId added modified removed
          cursor db).ops) := by
  obtain ⟨fu, fd, fc⟩ := fs
  cases removed with
  | nil => cases fu <;> cases fd <;> cases fc <;> simp [applyTransactionUpdates]
  | cons r rs =>
    cases fu <;> cases fd <;> cases fc <;> simp [applyTransactionUpdates]

/-- Concrete evaluation of
`applyTransactionUpdates_cursor_only_on_full_success`: a failing upsert step
leaves the item rows unchanged and issues no cursor update. -/
theorem applyTransactionUpdates_cursor_only_on_full_success_witness :
    (applyTransactionUpdates ⟨true, false, false⟩ "u1" "item1" [] [] ["t0"]
        "c1" sampleDb).db.items = sampleDb.items ∧
    ¬ StoreOp.updateCursor "item1" "c1" ∈
      (applyTransactionUpdates ⟨true, false, false⟩ "u1" "item1" [] [] ["t0"]
        "c1" sampleDb).ops :=
  ⟨(applyTransactionUpdates_cursor_only_on_full_success ⟨true, false, false⟩
      "u1" "item1" [] [] ["t0"] "c1" sampleDb).2.1 (by simp [applyTransactionUpdates]),
   (applyTransactionUpdates_cursor_only_on_full_success ⟨true, false, false⟩
      "u1" "item1" [] [] ["t0"] "c1" sampleDb).2.2 (Or.inl rfl) "item1" "c1"⟩

/-- C3: a thrown page fetch aborts `syncTransactions` before anything is
applied: the returned store equals the pre-sync store (transactions and item
cursor untouched), no store call is issued, and the caller receives the
`SyncFailed` error. -/
theorem syncTransactions_fetch_error_leaves_store_unchanged
    (ps : List TxSyncPage) (rest : List (Except Unit TxSyncPage))
    (fs : FailSpec) (userId itemId : String) (db : Db)
    (hps : ∀ p ∈ ps, p.has_more = true) :
    syncTransactions fs userId itemId
        (ps.map Except.ok ++ Except.error () :: rest) db =
      ⟨db, [], Except.error "Failed to sync transactions"⟩ := by
  unfold syncTransactions
  simp only [syncLoop_fetch_error ps hps]

/-- Concrete evaluation of
`syncTransactions_fetch_error_leaves_store_unchanged`: page two throws. -/
theorem syncTransactions_fetch_error_leaves_store_unchanged_witness :
    syncTransactions noFail "u1" "item1"
        ([samplePage1].map Except.ok ++ Except.error () :: []) sampleDb =
      ⟨sampleDb, [], Except.error "Failed to sync transactions"⟩ :=
  syncTransactions_fetch_error_leaves_store_unchanged [samplePage1] [] noFail
    "u1" "item1" sampleDb (by intro p hp; simp at hp; rw [hp]; rfl)

/-- C4: a transaction identifier that is both upserted (it appears in the
added or modified set) and in the removed set of the same delta is absent
from the transactions collection after a successful application: the delete
step runs after the upsert step. -/
theorem applyTransactionUpdates_removed_wins
    (userId itemId : String) (added modified : List PlaidTransaction)
    (removed : List String) (cursor : String) (db : Db) (tid : String)
    (hup : tid ∈ (added ++ modified).map PlaidTransaction.transaction_id)
    (hrem : tid ∈ removed) :
    (applyTransactionUpdates noFail userId itemId added modified removed
        cursor db).err = none ∧
    ∀ row ∈ (applyTransactionUpdates noFail userId itemId added modified
        removed cursor db).db.transactions, ¬ row.transaction_id = tid := by
  have hpos : removed.length > 0 := by
    cases removed with
    | nil => cases hrem
    | cons x xs => exact Nat.succ_pos xs.length
  rw [apply_noFail_removed_pos userId itemId added modified removed cursor db
    hpos]
  refine ⟨rfl, ?_⟩
  intro row hrow hc
  have hmem := List.mem_filter.mp hrow
  have hcont : removed.contains row.transaction_id = true := by
    rw [hc]
    exact List.elem_iff.mpr hrem
  rw [hcont] at hmem
  cases hmem.2

/-- Concrete evaluation of `applyTransactionUpdates_removed_wins`. -/
theorem applyTransactionUpdates_removed_wins_witness :
    (applyTransactionUpdates noFail "u1" "item1" [sampleTx1] [] ["t1"]
        "c1" sampleDb).err = none ∧
    ∀ row ∈ (applyTransactionUpdates noFail "u1" "item1" [sampleTx1] []
        ["t1"] "c1" sampleDb).db.transactions, ¬ row.transaction_id = "t1" :=
  applyTransactionUpdates_removed_wins "u1" "item1" [sampleTx1] [] ["t1"]
    "c1" sampleDb "t1" (by simp [sampleTx1]) (by simp)

/-- C5: applying the same delta twice yields the same storage state
(transaction rows and item cursor) as applying it once, and both
applications succeed: the upsert is keyed, so no duplicate rows appear, and
re-deleting already-deleted identifiers changes nothing. -/
theorem applyTransactionUpdates_idem
    (userId itemId : String) (added modified : List PlaidTransaction)
    (removed : List String) (cursor : String) (db : Db) :
    (applyTransactionUpdates noFail userId itemId added modified removed
        cursor
        (applyTransactionUpdates noFail userId itemId added modified removed
          cursor db).db).db =
      (applyTransactionUpdates noFail userId itemId added modified removed
        cursor db).db
    ∧ (applyTransactionUpdates noFail userId itemId added modified removed
        cursor db).err = none
    ∧ (applyTransactionUpdates noFail userId itemId added modified removed
        cursor
        (applyTransactionUpdates noFail userId itemId added modified removed
          cursor db).db).err = none := by
  by_cases hpos : removed.length > 0
  · rw [apply_noFail_removed_pos userId itemId added modified removed cursor
      db hpos]
    rw [apply_noFail_removed_pos userId itemId added modified removed cursor
      _ hpos]
    refine ⟨?_, rfl, rfl⟩
    show Db.mk _ _ _ = Db.mk _ _ _
    have htx :
        deleteByIds removed
          (upsertRows TransactionRow.transaction_id
            (deleteByIds removed
              (upsertRows TransactionRow.transaction_id db.transactions
                ((added ++ modified).map (txToRow userId))))
            ((added ++ modified).map (txToRow userId))) =
        deleteByIds removed
          (upsertRows TransactionRow.transaction_id db.transactions
            ((added ++ modified).map (txToRow userId))) :=
      filter_upsertRows_filter TransactionRow.transaction_id
        (fun k => !(removed.contains k)) db.transactions
        ((added ++ modified).map (txToRow userId))
    rw [htx, updateItemCursor_idem]
  · have h0 : removed = [] := by
      cases removed with
      | nil => rfl
      | cons x xs => exact absurd (Nat.succ_pos xs.length) hpos
    subst h0
    rw [apply_noFail_removed_nil userId itemId added modified cursor db]
    rw [apply_noFail_removed_nil userId itemId added modified cursor _]
    refine ⟨?_, rfl, rfl⟩
    show Db.mk _ _ _ = Db.mk _ _ _
    rw [upsertRows_idem, updateItemCursor_idem]

/-- C6: in the upsert step, a modified entry overrides an added entry with
the same transaction identifier (the batch lists added first, modified
second, and a later batch entry wins), so — provided the identifier is not
also in the removed set — the stored row afterwards carries the modified
entry's field values; and every added or modified transaction whose
identifier is not removed has a row keyed by its identifier. -/
theorem applyTransactionUpdates_modified_overrides_added
    (userId itemId : String) (added modified : List PlaidTransaction)
    (removed : List String) (cursor : String) (db : Db)
    (m : PlaidTransaction) (hm : m ∈ modified)
    (huniq : ∀ m' ∈ modified, m'.transaction_id = m.transaction_id → m' = m)
    (hadd : m.transaction_id ∈ added.map PlaidTransaction.transaction_id)
    (hnr : ¬ m.transaction_id ∈ removed) :
    (∃ row ∈ (applyTransactionUpdates noFail userId itemId added modified
        removed cursor db).db.transactions,
      row.transaction_id = m.transaction_id)
    ∧ (∀ row ∈ (applyTransactionUpdates noFail userId itemId added modified
        removed cursor db).db.transactions,
        row.transaction_id = m.transaction_id → row = txToRow userId m)
    ∧ (∀ t ∈ added ++ modified, ¬ t.transaction_id ∈ removed →
        ∃ row ∈ (applyTransactionUpdates noFail userId itemId added modified
          removed cursor db).db.transactions,
          row.transaction_id = t.transaction_id) := by
  rw [apply_noFail_transactions userId itemId added modified removed cursor
    db]
  unfold deleteByIds
  have hlastm : lastWith TransactionRow.transaction_id
      ((added ++ modified).map (txToRow userId)) m.transaction_id =
        some (txToRow userId m) := by
    rw [List.map_append, lastWith_append]
    have hmemmap : txToRow userId m ∈ modified.map (txToRow userId) :=
      List.mem_map_of_mem _ hm
    have hkeym : hasKey TransactionRow.transaction_id
        (modified.map (txToRow userId)) m.transaction_id = true :=
      hasKey_of_mem TransactionRow.transaction_id hmemmap
    obtain ⟨b, hb⟩ :=
      lastWith_isSome_of_hasKey TransactionRow.transaction_id hkeym
    obtain ⟨hbmem, hbkey⟩ :=
      lastWith_mem TransactionRow.transaction_id _ _ _ hb
    obtain ⟨m', hm', hmb⟩ := List.mem_map.mp hbmem
    have hm'id : m'.transaction_id = m.transaction_id := by
      rw [← hbkey, ← hmb]
      rfl
    have hmm : m' = m := huniq m' hm' hm'id
    rw [hb]
    show some b = some (txToRow userId m)
    rw [← hmb, hmm]
  have hpresence : ∀ t ∈ added ++ modified, ¬ t.transaction_id ∈ removed →
      ∃ row ∈ (upsertRows TransactionRow.transaction_id db.transactions
          ((added ++ modified).map (txToRow userId))).filter
          (fun r => !(removed.contains r.transaction_id)),
        row.transaction_id = t.transaction_id := by
    intro t ht htnr
    have hkeyBt : hasKey TransactionRow.transaction_id
        ((added ++ modified).map (txToRow userId)) t.transaction_id = true :=
      hasKey_of_mem TransactionRow.transaction_id
        (List.mem_map_of_mem (txToRow userId) ht)
    have hkeyMt : hasKey TransactionRow.transaction_id
        (upsertRows TransactionRow.transaction_id db.transactions
          ((added ++ modified).map (txToRow userId)))
        t.transaction_id = true := by
      rw [hasKey_upsertRows, hkeyBt]
      simp
    obtain ⟨r1, hr1M, hr1k⟩ :=
      exists_mem_of_hasKey TransactionRow.transaction_id hkeyMt
    have hcont1 : removed.contains t.transaction_id = false := by
      cases hc : removed.contains t.transaction_id
      · rfl
      · exact absurd (List.elem_iff.mp hc) htnr
    refine ⟨r1, List.mem_filter.mpr ⟨hr1M, ?_⟩, hr1k⟩
    show (!(removed.contains r1.transaction_id)) = true
    have : r1.transaction_id = t.transaction_id := hr1k
    rw [this, hcont1]
    rfl
  refine ⟨?_, ?_, hpresence⟩
  · exact hpresence m (List.mem_append.mpr (Or.inr hm)) hnr
  · intro row hrow hrowk
    have hrowM := (List.mem_filter.mp hrow).1
    apply mem_upsertRows_value TransactionRow.transaction_id hrowM
    show lastWith TransactionRow.transaction_id _
      row.transaction_id = _
    rw [show TransactionRow.transaction_id row = m.transaction_id from hrowk]
    exact hlastm

/-- Concrete evaluation of
`applyTransactionUpdates_modified_overrides_added`: `"t1"` appears in both
the added and the modified set. -/
theorem applyTransactionUpdates_modified_overrides_added_witness :
    (∃ row ∈ (applyTransactionUpdates noFail "u1" "item1" [sampleTx1]
        [sampleTx1Mod] [] "c1" emptyDb).db.transactions,
      row.transaction_id = sampleTx1Mod.transaction_id)
    ∧ (∀ row ∈ (applyTransactionUpdates noFail "u1" "item1" [sampleTx1]
        [sampleTx1Mod] [] "c1" emptyDb).db.transactions,
        row.transaction_id = sampleTx1Mod.transaction_id →
          row = txToRow "u1" sampleTx1Mod)
    ∧ (∀ t ∈ [sampleTx1] ++ [sampleTx1Mod],
        ¬ t.transaction_id ∈ ([] : List String) →
        ∃ row ∈ (applyTransactionUpdates noFail "u1" "item1" [sampleTx1]
          [sampleTx1Mod] [] "c1" emptyDb).db.transactions,
          row.transaction_id = t.transaction_id) :=
  applyTransactionUpdates_modified_overrides_added "u1" "item1" [sampleTx1]
    [sampleTx1Mod] [] "c1" emptyDb sampleTx1Mod (by simp)
    (by intro m' hm' _; simpa using hm') (by simp [sampleTx1, sampleTx1Mod])
    (by simp)

theorem items_frame_cases (itemId cursor : String) (I J : List ItemRow)
    (h : I = J ∨ I = updateItemCursor itemId cursor J) :
    I.length = J.length ∧
    ∀ (i : Nat) (h1 : i < J.length) (h2 : i < I.length),
      ((J.get ⟨i, h1⟩).item_id ≠ itemId → I.get ⟨i, h2⟩ = J.get ⟨i, h1⟩) ∧
      sameExceptCursor (I.get ⟨i, h2⟩) (J.get ⟨i, h1⟩) := by
  rcases h with h | h
  · subst h
    exact ⟨rfl, fun i h1 h2 => ⟨fun _ => rfl, sameExceptCursor_refl _⟩⟩
  · subst h
    refine ⟨updateItemCursor_length itemId cursor J, ?_⟩
    intro i h1 h2
    rw [updateItemCursor_get itemId cursor J i h1 h2]
    by_cases hid : (J.get ⟨i, h1⟩).item_id == itemId
    · rw [if_pos hid]
      exact ⟨fun hne => absurd (by simpa using hid) hne,
        rfl, rfl, rfl, rfl, rfl⟩
    · rw [if_neg hid]
      exact ⟨fun _ => rfl, sameExceptCursor_refl _⟩

/-- C7: with a working store, the account-refresh path upserts one row per
account snapshot keyed by account identifier, carrying the mapped snapshot
fields together with the item's institution display name, and the mapping
substitutes the placeholder `"Unknown Institution"` when the institution
name is absent (or empty, which the `\x7c\x7c` fallback treats the same). -/
theorem storePlaidAccounts_upserts_mapped_rows
    (userId : String) (accounts : List AccountBase) (item : UpdatedItem)
    (db : Db) (a : AccountBase) (ha : a ∈ accounts)
    (huniq : ∀ a' ∈ accounts, a'.account_id = a.account_id → a' = a) :
    (storePlaidAccounts false userId accounts item db).result =
      Except.ok "Successfully stored accounts"
    ∧ (∃ row ∈ (storePlaidAccounts false userId accounts item db).db.accounts,
        row.account_id = a.account_id)
    ∧ (∀ row ∈ (storePlaidAccounts false userId accounts item db).db.accounts,
        row.account_id = a.account_id → row = accountToRow userId item a)
    ∧ (accountToRow userId item a).institution_name =
        orUnknownInstitution item.institution_name
    ∧ ((item.institution_name = none ∨ item.institution_name = some "") →
        (accountToRow userId item a).institution_name =
          "Unknown Institution") := by
  have hacc : (storePlaidAccounts false userId accounts item db).db.accounts =
      upsertRows AccountRow.account_id db.accounts
        (accounts.map (accountToRow userId item)) := rfl
  rw [hacc]
  have hlasta : lastWith AccountRow.account_id
      (accounts.map (accountToRow userId item)) a.account_id =
        some (accountToRow userId item a) := by
    have hmemmap : accountToRow userId item a ∈
        accounts.map (accountToRow userId item) :=
      List.mem_map_of_mem _ ha
    have hkeya : hasKey AccountRow.account_id
        (accounts.map (accountToRow userId item)) a.account_id = true :=
      hasKey_of_mem AccountRow.account_id hmemmap
    obtain ⟨b, hb⟩ := lastWith_isSome_of_hasKey AccountRow.account_id hkeya
    obtain ⟨hbmem, hbkey⟩ := lastWith_mem AccountRow.account_id _ _ _ hb
    obtain ⟨a', ha', hab⟩ := List.mem_map.mp hbmem
    have ha'id : a'.account_id = a.account_id := by
      rw [← hbkey, ← hab]
      rfl
    have haa : a' = a := huniq a' ha' ha'id
    rw [hb, ← hab, haa]
  have hkeyM : hasKey AccountRow.account_id
      (upsertRows AccountRow.account_id db.accounts
        (accounts.map (accountToRow userId item))) a.account_id = true := by
    rw [hasKey_upsertRows, hasKey_of_lastWith AccountRow.account_id hlasta]
    simp
  obtain ⟨r0, hr0M, hr0k⟩ := exists_mem_of_hasKey AccountRow.account_id hkeyM
  refine ⟨rfl, ⟨r0, hr0M, hr0k⟩, ?_, rfl, ?_⟩
  · intro row hrow hrowk
    apply mem_upsertRows_value AccountRow.account_id hrow
    show lastWith AccountRow.account_id _ row.account_id = _
    rw [show AccountRow.account_id row = a.account_id from hrowk]
    exact hlasta
  · intro hc
    rcases hc with hc | hc <;>
      simp [accountToRow, orUnknownInstitution, hc]

/-- Concrete evaluation of `storePlaidAccounts_upserts_mapped_rows`. -/
theorem storePlaidAccounts_upserts_mapped_rows_witness :
    (storePlaidAccounts false "u1" [sampleAccount] sampleUpdatedItem
        emptyDb).result = Except.ok "Successfully stored accounts"
    ∧ (∃ row ∈ (storePlaidAccounts false "u1" [sampleAccount]
        sampleUpdatedItem emptyDb).db.accounts,
        row.account_id = sampleAccount.account_id)
    ∧ (∀ row ∈ (storePlaidAccounts false "u1" [sampleAccount]
        sampleUpdatedItem emptyDb).db.accounts,
        row.account_id = sampleAccount.account_id →
          row = accountToRow "u1" sampleUpdatedItem sampleAccount)
    ∧ (accountToRow "u1" sampleUpdatedItem sampleAccount).institution_name =
        orUnknownInstitution sampleUpdatedItem.institution_name
    ∧ ((sampleUpdatedItem.institution_name = none ∨
          sampleUpdatedItem.institution_name = some "") →
        (accountToRow "u1" sampleUpdatedItem
          sampleAccount).institution_name = "Unknown Institution") :=
  storePlaidAccounts_upserts_mapped_rows "u1" [sampleAccount]
    sampleUpdatedItem emptyDb sampleAccount (by simp)
    (by intro a' ha' _; simpa using ha')

/-- C8: the pagination loop stops exactly when a page clears `has_more`:
if some call of the stream returns `has_more = false` then the loop
finishes (fuel one past that call index suffices), and the engine imposes no
iteration cap of its own — against a stream whose pages always carry
`has_more = true` the loop exhausts any amount of fuel without returning.
Termination thus rests solely on the external contract. -/
theorem syncLoop_terminates_iff_hasMore_clears (f : Nat → TxSyncPage)
    (k : Nat) (h : (f k).has_more = false) :
    (∃ out, syncFuel f (k + 1) 0 none [] [] [] = some out)
    ∧ (∀ g : Nat → TxSyncPage, (∀ n, (g n).has_more = true) →
        ∀ fuel, syncFuel g fuel 0 none [] [] [] = none) := by
  constructor
  · exact syncFuel_terminates f (k + 1) k 0 (by rw [Nat.zero_add]; exact h)
      (Nat.lt_succ_self k) none [] [] []
  · intro g hg fuel
    exact syncFuel_spins_forever g hg fuel 0 none [] [] []

/-- Concrete evaluation of `syncLoop_terminates_iff_hasMore_clears`: a
stream whose first page already clears `has_more`. -/
theorem syncLoop_terminates_iff_hasMore_clears_witness :
    (∃ out, syncFuel (fun _ => samplePage2) (0 + 1) 0 none [] [] [] =
        some out)
    ∧ (∀ g : Nat → TxSyncPage, (∀ n, (g n).has_more = true) →
        ∀ fuel, syncFuel g fuel 0 none [] [] [] = none) :=
  syncLoop_terminates_iff_hasMore_clears (fun _ => samplePage2) 0 rfl

/-- C9: delta application touches nothing outside its footprint, whatever
the failure pattern: the accounts collection is unchanged; transaction rows
whose identifier is in none of the added, modified or removed sets are
unchanged; item rows keep their length and every column except that the
cursor of rows matching the given item identifier may change; and when the
removed set is empty no delete call is issued at all. -/
theorem applyTransactionUpdates_frame (fs : FailSpec) (userId itemId : String)
    (added modified : List PlaidTransaction) (removed : List String)
    (cursor : String) (db : Db) :
    ((applyTransactionUpdates fs userId itemId added modified removed cursor
        db).db.accounts = db.accounts)
    ∧ ((applyTransactionUpdates fs userId itemId added modified removed
        cursor db).db.transactions.filter
        (fun r => !(((added ++ modified).map PlaidTransaction.transaction_id
            ++ removed).contains r.transaction_id)) =
      db.transactions.filter
        (fun r => !(((added ++ modified).map PlaidTransaction.transaction_id
            ++ removed).contains r.transaction_id)))
    ∧ ((applyTransactionUpdates fs userId itemId added modified removed
        cursor db).db.items.length = db.items.length)
    ∧ (∀ (i : Nat) (h1 : i < db.items.length)
        (h2 : i < (applyTransactionUpdates fs userId itemId added modified
          removed cursor db).db.items.length),
        ((db.items.get ⟨i, h1⟩).item_id ≠ itemId →
          (applyTransactionUpdates fs userId itemId added modified removed
            cursor db).db.items.get ⟨i, h2⟩ = db.items.get ⟨i, h1⟩)
        ∧ sameExceptCursor
            ((applyTransactionUpdates fs userId itemId added modified
              removed cursor db).db.items.get ⟨i, h2⟩)
            (db.items.get ⟨i, h1⟩))
    ∧ (removed = [] → ∀ ids, ¬ StoreOp.deleteTx ids ∈
        (applyTransactionUpdates fs userId itemId added modified removed
          cursor db).ops) := by
  obtain ⟨hacc, htx, hitems, hops⟩ :=
    apply_db_cases fs userId itemId added modified removed cursor db
  obtain ⟨hlen, hget⟩ := items_frame_cases itemId cursor
    (applyTransactionUpdates fs userId itemId added modified removed cursor
      db).db.items db.items hitems
  refine ⟨hacc, ?_, hlen, hget, hops⟩
  have hfoot : ∀ t ∈ added ++ modified,
      ((added ++ modified).map PlaidTransaction.transaction_id
        ++ removed).contains t.transaction_id = true := by
    intro t ht
    exact List.elem_iff.mpr
      (List.mem_append.mpr (Or.inl (List.mem_map_of_mem _ ht)))
  have hsub : ∀ k : String, removed.contains k = true →
      ((added ++ modified).map PlaidTransaction.transaction_id
        ++ removed).contains k = true := by
    intro k hk
    exact List.elem_iff.mpr (List.mem_append.mpr (Or.inr (List.elem_iff.mp hk)))
  rcases htx with h | h | h <;> rw [h]
  · exact filter_tx_frame _ added modified userId db.transactions hfoot
  · rw [filter_delete_frame _ removed _ hsub]
    exact filter_tx_frame _ added modified userId db.transactions hfoot

/-- C10: a missing item row, a null stored cursor, or an empty-string stored
cursor does not make `syncTransactions` fail up front: the starting cursor
collapses to `null` (a full first sync), and in the missing-row case a
successful sync completes with the final cursor update matching zero item
rows and raising no error. -/
theorem syncTransactions_missing_item_row_ok (db : Db) (itemId : String)
    (hmiss : db.items.filter (fun it => it.item_id == itemId) = []) :
    getStoredCursor itemId db = none
    ∧ (∀ (userId : String) (init : List TxSyncPage) (last : TxSyncPage),
        (∀ p ∈ init, p.has_more = true) → last.has_more = false →
          (syncTransactions noFail userId itemId
              ((init ++ [last]).map Except.ok) db).result =
            Except.ok "Transactions synced successfully"
          ∧ (syncTransactions noFail userId itemId
              ((init ++ [last]).map Except.ok) db).db.items = db.items)
    ∧ (∀ (db2 : Db) (it : ItemRow),
        db2.items.filter (fun it2 => it2.item_id == itemId) = [it] →
        (it.cursor = none ∨ it.cursor = some "") →
        getStoredCursor itemId db2 = none) := by
  have hnomatch : ∀ it ∈ db.items, ¬ it.item_id = itemId := by
    intro it hit hc
    have := List.filter_eq_nil_iff.mp hmiss it hit
    exact this (by simpa using hc)
  refine ⟨?_, ?_, ?_⟩
  · unfold getStoredCursor
    rw [hmiss]
  · intro userId init last hinit hlast
    rw [sync_pages_noFail userId itemId init last db hinit hlast]
    refine ⟨rfl, ?_⟩
    show (applyTransactionUpdates noFail userId itemId _ _ _ _ db).db.items
      = db.items
    rw [apply_noFail_items]
    exact updateItemCursor_of_no_match itemId last.next_cursor db.items
      hnomatch
  · intro db2 it hfilter hc
    unfold getStoredCursor
    rw [hfilter]
    rcases hc with hc | hc <;> simp [hc]

/-- Concrete evaluation of `syncTransactions_missing_item_row_ok` on a store
with no item rows at all. -/
theorem syncTransactions_missing_item_row_ok_witness :
    getStoredCursor "item1" emptyDb = none
    ∧ (∀ (userId : String) (init : List TxSyncPage) (last : TxSyncPage),
        (∀ p ∈ init, p.has_more = true) → last.has_more = false →
          (syncTransactions noFail userId "item1"
              ((init ++ [last]).map Except.ok) emptyDb).result =
            Except.ok "Transactions synced successfully"
          ∧ (syncTransactions noFail userId "item1"
              ((init ++ [last]).map Except.ok) emptyDb).db.items =
            emptyDb.items)
    ∧ (∀ (db2 : Db) (it : ItemRow),
        db2.items.filter (fun it2 => it2.item_id == "item1") = [it] →
        (it.cursor = none ∨ it.cursor = some "") →
        getStoredCursor "item1" db2 = none) :=
  syncTransactions_missing_item_row_ok emptyDb "item1" rfl

end EgMainFrame
